import Mathlib

/-!
Verification of the bulk card-key ingestion sub-flow of the ldc-shop
repository.

The definitions below are a shallow embedding of:

* the server actions module `src/actions/admin.ts` (the D1/SQLite variant,
  which is the one the client component imports, since it exports
  `deleteAllCards`): `checkAdmin` via `parseAdminUsers`/`isAdmin`,
  `addCards`, `addCardsBatch`, `deleteCard`, `deleteAllCards`;
* the client upload coordinator in the cards page component:
  newline normalization, chunking with `BATCH_SIZE = 50`
  (`CLIENT_BATCH_SIZE` here), and the progress trace (`uploadSteps`).

Storage is modelled as an in-memory list of card rows plus an autoincrement
counter; timestamps (`Date.now()` and SQLite `unixepoch() * 1000`) are integer
milliseconds; JavaScript string helpers (`trim`, `split`, `toLowerCase`) are
modelled character-listwise over ASCII. Cache revalidation (`revalidatePath`)
and the best-effort `DROP INDEX IF EXISTS` compatibility statement are
external effects with no bearing on row state and are not modelled.
`Math.round(x)` on the nonnegative quotients arising in the progress code is
modelled exactly on rationals as `floor(num/den + 1/2)`.
-/

deriving instance DecidableEq for Except

namespace LdcShop

/-- JS `s.trim()` on the character list: drop ASCII whitespace from both ends. -/
def trimChars (cs : List Char) : List Char :=
  ((cs.dropWhile Char.isWhitespace).reverse.dropWhile Char.isWhitespace).reverse

/-- JS `s.trim()`. -/
def jsTrim (s : String) : String :=
  String.mk (trimChars s.data)

/-- JS `s.split(sep)` for a single-character separator, on character lists.
`split` keeps empty segments, and splitting the empty string yields one
empty segment. -/
def splitOnChar (sep : Char) : List Char → List (List Char)
  | [] => [[]]
  | c :: cs =>
    if c = sep then [] :: splitOnChar sep cs
    else
      match splitOnChar sep cs with
      | [] => [[c]]
      | l :: ls => (c :: l) :: ls

/-- JS `text.split(/\n/)`. -/
def jsSplitNl (s : String) : List String :=
  (splitOnChar '\n' s.data).map String.mk

/-- JS `s.toLowerCase()` (ASCII). -/
def jsToLower (s : String) : String :=
  String.mk (s.data.map Char.toLower)

/-- A session user as consumed by `checkAdmin` (`session?.user`, of which only
the `username` field is read). -/
structure SessionUser where
  username : String
deriving Repr, DecidableEq

/-- `process.env.ADMIN_USERS?.toLowerCase().split(',') || []`: `none` models an
unset environment variable. -/
def parseAdminUsers : Option String → List String
  | none => []
  | some env => (splitOnChar ',' (jsToLower env).data).map String.mk

/-- The test performed by `checkAdmin`: it succeeds iff a user is present, the
`username` is truthy (non-empty), and `adminUsers.includes(username.toLowerCase())`. -/
def isAdmin (adminEnv : Option String) (user : Option SessionUser) : Bool :=
  match user with
  | none => false
  | some u => u.username != "" && (parseAdminUsers adminEnv).contains (jsToLower u.username)

/-- One row of the `cards` table (the fields the admin actions read or write).
`isUsed` and `reservedAt` are nullable columns; `reservedAt` is a millisecond
timestamp. -/
structure CardRow where
  id : Nat
  productId : String
  cardKey : String
  isUsed : Option Bool
  reservedAt : Option Int
deriving Repr, DecidableEq

/-- The card storage: the `cards` table together with its autoincrement
counter for fresh `id`s. -/
structure Store where
  cards : List CardRow
  nextId : Nat
deriving Repr, DecidableEq

/-- Effect of inserting one card row: `used` defaults to false, no
reservation, fresh autoincrement id. -/
def insertRow (productId cardKey : String) (st : Store) : Store :=
  { cards := st.cards ++
      [{ id := st.nextId, productId := productId, cardKey := cardKey,
         isUsed := some false, reservedAt := none }],
    nextId := st.nextId + 1 }

/-- Effect of one `db.insert(cards).values(batch.map(key => ({productId, cardKey: key})))`
statement: append one row per key, in order. -/
def insertMany (productId : String) (keys : List String) (st : Store) : Store :=
  keys.foldl (fun s k => insertRow productId k s) st

/-- The rows appended for a key list when the autoincrement counter starts at
`startId` (specification of the net effect of `insertMany`). -/
def mkRows (productId : String) (startId : Nat) : List String → List CardRow
  | [] => []
  | k :: ks =>
    { id := startId, productId := productId, cardKey := k,
      isUsed := some false, reservedAt := none } :: mkRows productId (startId + 1) ks

/-- Number of iterations of `for (let i = 0; i < len; i += n)`, i.e. the
number of chunks: `ceil(len / n)`. -/
def numBatches (n len : Nat) : Nat := (len + n - 1) / n

/-- The batch list produced by the loop
`for (let i = 0; i < l.length; i += n) { l.slice(i, i + n) }`:
the `k`-th batch is `l.slice(k*n, k*n + n)`. -/
def chunksOf {α : Type _} (n : Nat) (l : List α) : List (List α) :=
  (List.range (numBatches n l.length)).map fun k => (l.drop (k * n)).take n

/-- `cardKeys.map(k => k.trim()).filter(k => k)` — the sanitization performed
by `addCardsBatch` (its `validKeys`). -/
def sanitize (cardKeys : List String) : List String :=
  (cardKeys.map jsTrim).filter (fun k => k != "")

/-- The local `const BATCH_SIZE = 10` inside `addCards`/`addCardsBatch`
(sub-chunking for the D1 bound-parameter limit). -/
def WRITER_BATCH_SIZE : Nat := 10

/-- The key lists handed to the individual insert statements executed by one
`addCardsBatch` call. -/
def addCardsBatchInserts (cardKeys : List String) : List (List String) :=
  chunksOf WRITER_BATCH_SIZE (sanitize cardKeys)

/-- Server action `addCardsBatch(productId, cardKeys)`: admin check, trim and
drop empty keys, early `{ success: 0 }` on an empty survivor list, otherwise
insert the survivors in sub-chunks of `WRITER_BATCH_SIZE` and return their
count. -/
def addCardsBatch (adminEnv : Option String) (user : Option SessionUser)
    (productId : String) (cardKeys : List String) (st : Store) :
    Store × Except String Nat :=
  if isAdmin adminEnv user then
    let validKeys := sanitize cardKeys
    if validKeys.length = 0 then (st, Except.ok 0)
    else
      ((addCardsBatchInserts cardKeys).foldl (fun s batch => insertMany productId batch s) st,
       Except.ok validKeys.length)
  else (st, Except.error "Unauthorized")

/-- The normalization shared by the textarea action (`addCards`) and the file
upload handler: `text.split(/\n/).map(c => c.trim()).filter(c => c)`. -/
def normalize (text : String) : List String :=
  ((jsSplitNl text).map jsTrim).filter (fun c => c != "")

/-- Server action `addCards(formData)` restricted to its row effect: split on
newlines only, trim, drop empties, return early when nothing is left,
otherwise insert in sub-chunks of `WRITER_BATCH_SIZE`. -/
def addCards (adminEnv : Option String) (user : Option SessionUser)
    (productId : String) (rawCards : String) (st : Store) :
    Store × Except String Unit :=
  if isAdmin adminEnv user then
    let cardList := normalize rawCards
    if cardList.length = 0 then (st, Except.ok ())
    else
      ((chunksOf WRITER_BATCH_SIZE cardList).foldl (fun s batch => insertMany productId batch s) st,
       Except.ok ())
  else (st, Except.error "Unauthorized")

/-- `card.reservedAt && card.reservedAt > new Date(Date.now() - 60 * 1000)`:
a reservation exists and is strictly younger than 60 seconds. -/
def recentlyReserved (now : Int) (c : CardRow) : Bool :=
  match c.reservedAt with
  | none => false
  | some t => now - 60000 < t

/-- Server action `deleteCard(cardId)`: admin check, `findFirst` by id,
NotFound / used-conflict / reservation-conflict guards in that order, then
delete the row. -/
def deleteCard (adminEnv : Option String) (user : Option SessionUser)
    (cardId : Nat) (now : Int) (st : Store) : Store × Except String Unit :=
  if isAdmin adminEnv user then
    match st.cards.find? (fun c => c.id == cardId) with
    | none => (st, Except.error "Card not found")
    | some card =>
      if card.isUsed == some true then (st, Except.error "Cannot delete used card")
      else if recentlyReserved now card then (st, Except.error "Cannot delete reserved card")
      else ({ st with cards := st.cards.filter (fun c => !(c.id == cardId)) }, Except.ok ())
  else (st, Except.error "Unauthorized")

/-- The WHERE clause of `deleteAllCards`:
`productId = pid AND COALESCE(isUsed, 0) = 0 AND (reservedAt IS NULL OR reservedAt < now - 60000)`. -/
def deletable (productId : String) (now : Int) (c : CardRow) : Bool :=
  c.productId == productId && !(c.isUsed == some true) &&
    (match c.reservedAt with
     | none => true
     | some t => t < now - 60000)

/-- Server action `deleteAllCards(productId)`: admin check, then one
conditional filtered delete with RETURNING, whose row count is reported. -/
def deleteAllCards (adminEnv : Option String) (user : Option SessionUser)
    (productId : String) (now : Int) (st : Store) : Store × Except String Nat :=
  if isAdmin adminEnv user then
    ({ st with cards := st.cards.filter (fun c => !(deletable productId now c)) },
     Except.ok (st.cards.filter (fun c => deletable productId now c)).length)
  else (st, Except.error "Unauthorized")

/-- The top-level `const BATCH_SIZE = 50` of the cards page component (the
transport-level batch size of the upload coordinator). -/
def CLIENT_BATCH_SIZE : Nat := 50

/-- The sequential batch submissions of `handleFileUpload`: invoke
`addCardsBatch` on each batch in order, accumulate the returned success
counts, abort on the first error. -/
def runBatches (adminEnv : Option String) (user : Option SessionUser) (productId : String) :
    List (List String) → Store → Store × Except String Nat
  | [], st => (st, Except.ok 0)
  | batch :: rest, st =>
    match addCardsBatch adminEnv user productId batch st with
    | (st1, Except.ok n) =>
      match runBatches adminEnv user productId rest st1 with
      | (st2, Except.ok m) => (st2, Except.ok (n + m))
      | (st2, Except.error e) => (st2, Except.error e)
    | (st1, Except.error e) => (st1, Except.error e)

/-- The client file upload handler restricted to its storage effect and
aggregate count: normalize the file text, surface a no-cards condition without
any network call when nothing is left, otherwise submit chunks of
`CLIENT_BATCH_SIZE` sequentially. -/
def handleFileUpload (adminEnv : Option String) (user : Option SessionUser)
    (productId : String) (text : String) (st : Store) : Store × Except String Nat :=
  let cardList := normalize text
  if cardList.length = 0 then (st, Except.error "no cards found")
  else runBatches adminEnv user productId (chunksOf CLIENT_BATCH_SIZE cardList) st

/-- `Math.round(num / den)` for natural `num` and positive `den`, computed
exactly: `floor(num/den + 1/2)`. -/
def jsRound (num den : Nat) : Nat := (2 * num + den) / (2 * den)

/-- Progress trace of `handleFileUpload` over `total` normalized keys: for the
batch starting at offset `i = k * 50` the component sets
`processedCount = Math.min(i + BATCH_SIZE, total)` and
`progress = Math.round(((i + BATCH_SIZE) / total) * 100)`.
Each trace entry is `(offset, processedCount, progress)`. -/
def uploadSteps (total : Nat) : List (Nat × Nat × Nat) :=
  (List.range (numBatches CLIENT_BATCH_SIZE total)).map fun k =>
    (k * CLIENT_BATCH_SIZE,
     min (k * CLIENT_BATCH_SIZE + CLIENT_BATCH_SIZE) total,
     jsRound ((k * CLIENT_BATCH_SIZE + CLIENT_BATCH_SIZE) * 100) total)

/-- `Number.parseInt(s, 10)` restricted to the shapes these actions feed it:
an optional sign followed by the longest decimal-digit prefix; `none` models
`NaN` (no digits to parse). -/
def jsParseInt (s : String) : Option Int :=
  let digitsVal : List Char → Option Int := fun cs =>
    let ds := cs.takeWhile Char.isDigit
    if ds.isEmpty then none
    else some (ds.foldl (fun acc c => 10 * acc + ((c.toNat : Int) - 48)) 0)
  match s.data with
  | '-' :: rest => (digitsVal rest).map fun n => -n
  | '+' :: rest => digitsVal rest
  | cs => digitsVal cs

/-- One row of the `products` table (the columns the admin actions read or
write). `isActive` and `sortOrder` are set by `toggleProductStatus` and
`reorderProduct` and take their schema defaults on insert. -/
structure ProductRow where
  id : String
  name : String
  description : String
  price : String
  compareAtPrice : Option String
  category : String
  image : String
  purchaseLimit : Option Int
  isHot : Bool
  isActive : Bool
  sortOrder : Int
deriving Repr, DecidableEq

/-- One row of the `reviews` table; `deleteReview` touches only the id. -/
structure ReviewRow where
  id : Nat
deriving Repr, DecidableEq

/-- One row of the `categories` table (the columns the admin actions set:
the raw category auto-insert sets only `name` and `updated_at`, the rest
keep their schema defaults; `saveCategory` sets all four). -/
structure CategoryRow where
  id : Int
  name : String
  icon : Option String
  sortOrder : Int
  updatedAt : Int
deriving Repr, DecidableEq

/-- The non-card tables touched by the remaining admin actions, with the
autoincrement counter of `categories`. The `settings` table is a
key-to-value map (`key TEXT PRIMARY KEY, value TEXT`). -/
structure ShopDb where
  products : List ProductRow
  reviews : List ReviewRow
  categories : List CategoryRow
  nextCategoryId : Int
  settings : List (String × String)
deriving Repr, DecidableEq

/-- Modelled from the spec: `setSetting` comes from the queries module, which
is not among the provided sources; per the settings schema (`key TEXT
PRIMARY KEY, value TEXT`) and its use by the settings actions it upserts
`value` under `key`. -/
def setSetting (key value : String) (db : ShopDb) : ShopDb :=
  if db.settings.any (fun kv => kv.1 == key) then
    { db with settings := db.settings.map fun kv =>
        if kv.1 == key then (kv.1, value) else kv }
  else
    { db with settings := db.settings ++ [(key, value)] }

/-- The values `saveProduct` extracts from its FormData: `id`,
`compareAtPrice`, `purchaseLimit` and `isHot` keep the nullability of
`formData.get`, the remaining fields are read with `as string` casts. -/
structure ProductForm where
  id : Option String
  name : String
  description : String
  price : String
  compareAtPrice : Option String
  category : String
  image : String
  purchaseLimit : Option String
  isHot : Option String
deriving Repr, DecidableEq

/-- Server action `saveProduct(formData)`: admin check, then `doSave` —
auto-insert the category row by name when a category is given
(`ON CONFLICT (name) DO NOTHING`, setting only `name` and `updated_at`),
then upsert the product on its id. `Date.now()` is the `now` argument, so
the generated fallback id is `prod_` followed by `now`; `isHot` is the
`=== 'on'` checkbox test; `compareAtPrice` is dropped when falsy or `'0'`;
a non-numeric `purchaseLimit` (`parseInt` NaN) is modelled as no limit.
The `42703` catch-migrate-retry is not modelled: in this embedding the
schema always has every column, so `doSave` cannot raise it. -/
def saveProduct (adminEnv : Option String) (user : Option SessionUser)
    (form : ProductForm) (now : Int) (db : ShopDb) : ShopDb × Except String Unit :=
  if isAdmin adminEnv user then
    let id := match form.id with
      | some s => if s != "" then s else "prod_" ++ toString now
      | none => "prod_" ++ toString now
    let compareAtPrice := match form.compareAtPrice with
      | some s => if s != "" && s != "0" then some s else none
      | none => none
    let purchaseLimit := match form.purchaseLimit with
      | some s => if s != "" then jsParseInt s else none
      | none => none
    let isHot := form.isHot == some "on"
    let db1 :=
      if form.category != "" then
        if db.categories.any (fun c => c.name == form.category) then db
        else { db with
          categories := db.categories ++
            [{ id := db.nextCategoryId, name := form.category, icon := none,
               sortOrder := 0, updatedAt := now }],
          nextCategoryId := db.nextCategoryId + 1 }
      else db
    let setRow : ProductRow → ProductRow := fun p =>
      { p with
        name := form.name
        description := form.description
        price := form.price
        compareAtPrice := compareAtPrice
        category := form.category
        image := form.image
        purchaseLimit := purchaseLimit
        isHot := isHot }
    let newRow : ProductRow :=
      { id := id
        name := form.name
        description := form.description
        price := form.price
        compareAtPrice := compareAtPrice
        category := form.category
        image := form.image
        purchaseLimit := purchaseLimit
        isHot := isHot
        isActive := true
        sortOrder := 0 }
    let db2 :=
      if db1.products.any (fun p => p.id == id) then
        { db1 with products := db1.products.map fun p => if p.id == id then setRow p else p }
      else
        { db1 with products := db1.products ++ [newRow] }
    (db2, Except.ok ())
  else (db, Except.error "Unauthorized")

/-- Server action `deleteProduct(id)`: admin check, then delete the product
rows with that id. -/
def deleteProduct (adminEnv : Option String) (user : Option SessionUser)
    (id : String) (db : ShopDb) : ShopDb × Except String Unit :=
  if isAdmin adminEnv user then
    ({ db with products := db.products.filter fun p => !(p.id == id) }, Except.ok ())
  else (db, Except.error "Unauthorized")

/-- Server action `toggleProductStatus(id, isActive)`: admin check, then set
`isActive` on the rows with that id. -/
def toggleProductStatus (adminEnv : Option String) (user : Option SessionUser)
    (id : String) (isActive : Bool) (db : ShopDb) : ShopDb × Except String Unit :=
  if isAdmin adminEnv user then
    ({ db with products := db.products.map fun p =>
        if p.id == id then { p with isActive := isActive } else p }, Except.ok ())
  else (db, Except.error "Unauthorized")

/-- Server action `reorderProduct(id, newOrder)`: admin check, then set
`sortOrder` on the rows with that id. -/
def reorderProduct (adminEnv : Option String) (user : Option SessionUser)
    (id : String) (newOrder : Int) (db : ShopDb) : ShopDb × Except String Unit :=
  if isAdmin adminEnv user then
    ({ db with products := db.products.map fun p =>
        if p.id == id then { p with sortOrder := newOrder } else p }, Except.ok ())
  else (db, Except.error "Unauthorized")

/-- Server action `saveShopName(rawName)`: admin check, trim, empty and
64-length validation, then `setSetting('shop_name', name)`. The
table-missing catch (`42P01`: create the settings table and retry) is not
modelled: the settings table always exists in this embedding, so
`setSetting` cannot raise it. -/
def saveShopName (adminEnv : Option String) (user : Option SessionUser)
    (rawName : String) (db : ShopDb) : ShopDb × Except String Unit :=
  if isAdmin adminEnv user then
    let name := jsTrim rawName
    if name == "" then (db, Except.error "Shop name cannot be empty")
    else if 64 < name.length then (db, Except.error "Shop name is too long")
    else (setSetting "shop_name" name db, Except.ok ())
  else (db, Except.error "Unauthorized")

/-- Server action `deleteReview(reviewId)`: admin check, then delete the
review rows with that id. -/
def deleteReview (adminEnv : Option String) (user : Option SessionUser)
    (reviewId : Nat) (db : ShopDb) : ShopDb × Except String Unit :=
  if isAdmin adminEnv user then
    ({ db with reviews := db.reviews.filter fun r => !(r.id == reviewId) }, Except.ok ())
  else (db, Except.error "Unauthorized")

/-- Server action `saveLowStockThreshold(raw)`: admin check, trim and parse
(`raw || ''` only turns null into the empty string, so it is the identity on
the string argument), store the value when it is a positive integer and
`'5'` otherwise. -/
def saveLowStockThreshold (adminEnv : Option String) (user : Option SessionUser)
    (raw : String) (db : ShopDb) : ShopDb × Except String Unit :=
  if isAdmin adminEnv user then
    let value := match jsParseInt (jsTrim raw) with
      | some v => if 0 < v then toString v else "5"
      | none => "5"
    (setSetting "low_stock_threshold" value db, Except.ok ())
  else (db, Except.error "Unauthorized")

/-- Server action `saveCheckinReward(raw)`: like the threshold action with
default `'10'`; the source calls `setSetting` twice with the same pair, and
so does the model. -/
def saveCheckinReward (adminEnv : Option String) (user : Option SessionUser)
    (raw : String) (db : ShopDb) : ShopDb × Except String Unit :=
  if isAdmin adminEnv user then
    let value := match jsParseInt (jsTrim raw) with
      | some v => if 0 < v then toString v else "10"
      | none => "10"
    (setSetting "checkin_reward" value (setSetting "checkin_reward" value db), Except.ok ())
  else (db, Except.error "Unauthorized")

/-- Server action `saveCheckinEnabled(enabled)`: admin check, then store
`'true'` or `'false'`. -/
def saveCheckinEnabled (adminEnv : Option String) (user : Option SessionUser)
    (enabled : Bool) (db : ShopDb) : ShopDb × Except String Unit :=
  if isAdmin adminEnv user then
    (setSetting "checkin_enabled" (if enabled then "true" else "false") db, Except.ok ())
  else (db, Except.error "Unauthorized")

/-- The values `saveCategory` extracts from its FormData, all with the
nullability of `formData.get`. -/
structure CategoryForm where
  id : Option String
  name : Option String
  icon : Option String
  sortOrder : Option String
deriving Repr, DecidableEq

/-- Server action `saveCategory(formData)`: admin check
(`ensureCategoriesTable` is schema-only and has no row effect), trim the
name and icon (`String(x || '')` turns null into the empty string), parse
`sortOrder` with `|| 0` mapping NaN to 0, reject an empty name, then update
when `idRaw` is truthy and insert otherwise. A non-numeric truthy id parses
to NaN, which matches no row. `new Date()` is the `now` argument. -/
def saveCategory (adminEnv : Option String) (user : Option SessionUser)
    (form : CategoryForm) (now : Int) (db : ShopDb) : ShopDb × Except String Unit :=
  if isAdmin adminEnv user then
    let name := jsTrim (form.name.getD "")
    let icon := if jsTrim (form.icon.getD "") != "" then some (jsTrim (form.icon.getD "")) else none
    let sortOrder : Int := match jsParseInt (form.sortOrder.getD "0") with
      | some v => v
      | none => 0
    let idRaw := match form.id with
      | some s => if s != "" then some s else none
      | none => none
    if name == "" then (db, Except.error "Category name is required")
    else
      match idRaw with
      | some s =>
        match jsParseInt s with
        | some idv =>
          ({ db with categories := db.categories.map fun c =>
              if c.id == idv then
                { c with name := name, icon := icon, sortOrder := sortOrder, updatedAt := now }
              else c }, Except.ok ())
        | none => (db, Except.ok ())
      | none =>
        ({ db with
            categories := db.categories ++
              [{ id := db.nextCategoryId, name := name, icon := icon,
                 sortOrder := sortOrder, updatedAt := now }],
            nextCategoryId := db.nextCategoryId + 1 }, Except.ok ())
  else (db, Except.error "Unauthorized")

/-- Server action `deleteCategory(id)`: admin check (the schema-only
`ensureCategoriesTable` has no row effect), then delete the category rows
with that id. -/
def deleteCategory (adminEnv : Option String) (user : Option SessionUser)
    (id : Int) (db : ShopDb) : ShopDb × Except String Unit :=
  if isAdmin adminEnv user then
    ({ db with categories := db.categories.filter fun c => !(c.id == id) }, Except.ok ())
  else (db, Except.error "Unauthorized")

/-! ### Helper lemmas: trimming and splitting -/

theorem dropWhile_head_false {α : Type _} (p : α → Bool) (l : List α) (a : α) (t : List α)
    (h : l.dropWhile p = a :: t) : p a = false := by
  have hne : l.dropWhile p ≠ [] := by simp [h]
  have := List.head_dropWhile_not p (l := l) hne
  simpa [h] using this

theorem trimChars_split (cs : List Char) :
    cs.dropWhile Char.isWhitespace =
      trimChars cs ++ ((cs.dropWhile Char.isWhitespace).reverse.takeWhile Char.isWhitespace).reverse := by
  unfold trimChars
  have h := List.takeWhile_append_dropWhile (p := Char.isWhitespace)
    (l := (cs.dropWhile Char.isWhitespace).reverse)
  calc cs.dropWhile Char.isWhitespace
      = (cs.dropWhile Char.isWhitespace).reverse.reverse := by rw [List.reverse_reverse]
    _ = ((cs.dropWhile Char.isWhitespace).reverse.takeWhile Char.isWhitespace ++
          (cs.dropWhile Char.isWhitespace).reverse.dropWhile Char.isWhitespace).reverse := by rw [h]
    _ = _ := by rw [List.reverse_append]

theorem trimChars_dropWhile (cs : List Char) :
    (trimChars cs).dropWhile Char.isWhitespace = trimChars cs := by
  cases h : trimChars cs with
  | nil => simp
  | cons a t =>
    have hsplit := trimChars_split cs
    rw [h] at hsplit
    have ha : Char.isWhitespace a = false := by
      have hh : cs.dropWhile Char.isWhitespace =
          a :: (t ++ ((cs.dropWhile Char.isWhitespace).reverse.takeWhile Char.isWhitespace).reverse) := by
        simpa using hsplit
      exact dropWhile_head_false _ cs a _ hh
    simp [List.dropWhile_cons, ha]

theorem trimChars_reverse_dropWhile (cs : List Char) :
    (trimChars cs).reverse.dropWhile Char.isWhitespace = (trimChars cs).reverse := by
  unfold trimChars
  rw [List.reverse_reverse]
  exact List.dropWhile_idempotent _ _

theorem trimChars_idem (cs : List Char) : trimChars (trimChars cs) = trimChars cs := by
  conv_lhs => rw [trimChars]
  rw [trimChars_dropWhile, trimChars_reverse_dropWhile, List.reverse_reverse]

theorem jsTrim_idem (s : String) : jsTrim (jsTrim s) = jsTrim s := by
  unfold jsTrim
  rw [show (String.mk (trimChars s.data)).data = trimChars s.data from rfl, trimChars_idem]

theorem splitOnChar_ne_nil (sep : Char) (cs : List Char) : splitOnChar sep cs ≠ [] := by
  induction cs with
  | nil => simp [splitOnChar]
  | cons c cs ih =>
    rw [splitOnChar]
    split
    · simp
    · split
      · simp
      · simp

theorem splitOnChar_cons_self (sep : Char) (cs : List Char) :
    splitOnChar sep (sep :: cs) = [] :: splitOnChar sep cs := by
  rw [splitOnChar, if_pos rfl]

theorem splitOnChar_cons_ne (sep c : Char) (cs : List Char) (hc : c ≠ sep) :
    splitOnChar sep (c :: cs) =
      match splitOnChar sep cs with
      | [] => [[c]]
      | l :: ls => (c :: l) :: ls := by
  rw [splitOnChar, if_neg hc]

theorem splitOnChar_append (sep : Char) (a b : List Char) :
    splitOnChar sep (a ++ sep :: b) = splitOnChar sep a ++ splitOnChar sep b := by
  induction a with
  | nil => simp [splitOnChar_cons_self, splitOnChar]
  | cons c a ih =>
    by_cases hc : c = sep
    · subst hc
      rw [List.cons_append, splitOnChar_cons_self, splitOnChar_cons_self, ih, List.cons_append]
    · obtain ⟨l, ls, hsplit⟩ : ∃ l ls, splitOnChar sep a = l :: ls := by
        cases h : splitOnChar sep a with
        | nil => exact absurd h (splitOnChar_ne_nil sep a)
        | cons l ls => exact ⟨l, ls, rfl⟩
      rw [List.cons_append, splitOnChar_cons_ne sep c _ hc, splitOnChar_cons_ne sep c _ hc,
        ih, hsplit, List.cons_append]
      rfl

theorem splitOnChar_of_not_mem (sep : Char) (cs : List Char) (h : sep ∉ cs) :
    splitOnChar sep cs = [cs] := by
  induction cs with
  | nil => rfl
  | cons c cs ih =>
    have hc : ¬ c = sep := fun hc => h (hc ▸ List.mem_cons_self c cs)
    have hcs : sep ∉ cs := fun hm => h (List.mem_cons_of_mem c hm)
    simp only [splitOnChar, if_neg hc, ih hcs]

/-! ### Helper lemmas: sanitization and normalization -/

theorem normalize_eq_sanitize (t : String) : normalize t = sanitize (jsSplitNl t) := rfl

theorem mem_sanitize {k : String} {l : List String} (h : k ∈ sanitize l) :
    jsTrim k = k ∧ k ≠ "" := by
  unfold sanitize at h
  rcases List.mem_filter.mp h with ⟨hmem, hne⟩
  rcases List.mem_map.mp hmem with ⟨x, _, rfl⟩
  refine ⟨jsTrim_idem x, ?_⟩
  simpa [bne_iff_ne] using hne

theorem mem_normalize {k : String} {t : String} (h : k ∈ normalize t) :
    jsTrim k = k ∧ k ≠ "" :=
  mem_sanitize (normalize_eq_sanitize t ▸ h)

theorem sanitize_eq_self {l : List String} (h : ∀ k ∈ l, jsTrim k = k ∧ k ≠ "") :
    sanitize l = l := by
  unfold sanitize
  have hmap : l.map jsTrim = l := by
    have := List.map_congr_left (f := jsTrim) (g := id) (fun a ha => (h a ha).1)
    simpa using this
  rw [hmap]
  exact List.filter_eq_self.mpr fun a ha => by simpa [bne_iff_ne] using (h a ha).2

/-! ### Helper lemmas: chunking -/

theorem numBatches_zero (n : Nat) : numBatches n 0 = 0 := by
  unfold numBatches
  cases n with
  | zero => rfl
  | succ m => exact Nat.div_eq_of_lt (by omega)

theorem chunksOf_nil {α : Type _} (n : Nat) : chunksOf n ([] : List α) = [] := by
  simp [chunksOf, numBatches_zero]

theorem numBatches_pos_eq (n len : Nat) (hn : 0 < n) (hlen : 0 < len) :
    numBatches n len = (len - 1) / n + 1 := by
  unfold numBatches
  have h1 : len + n - 1 = (len - 1) + n := by omega
  rw [h1, Nat.add_div_right _ hn]

theorem lt_numBatches_iff (n len k : Nat) (hn : 0 < n) :
    k < numBatches n len ↔ k * n < len := by
  cases Nat.eq_zero_or_pos len with
  | inl h0 =>
    subst h0
    rw [numBatches_zero]
    omega
  | inr hlen =>
    rw [numBatches_pos_eq n len hn hlen]
    constructor
    · intro h
      have hk : k ≤ (len - 1) / n := by omega
      have := (Nat.le_div_iff_mul_le hn).mp hk
      omega
    · intro h
      have hk : k * n ≤ len - 1 := by omega
      have := (Nat.le_div_iff_mul_le hn).mpr hk
      omega

theorem chunksOf_length {α : Type _} (n : Nat) (l : List α) :
    (chunksOf n l).length = numBatches n l.length := by
  simp [chunksOf]

theorem getElem_chunksOf {α : Type _} (n : Nat) (l : List α) (k : Nat)
    (h : k < (chunksOf n l).length) :
    (chunksOf n l)[k] = (l.drop (k * n)).take n := by
  simp [chunksOf]

theorem mem_chunksOf {α : Type _} {n : Nat} {l c : List α} (hn : 0 < n)
    (hc : c ∈ chunksOf n l) :
    ∃ k, k * n < l.length ∧ c = (l.drop (k * n)).take n := by
  rcases List.mem_iff_getElem.mp hc with ⟨k, hk, hceq⟩
  have hk2 : k < numBatches n l.length := by rw [← chunksOf_length n l]; exact hk
  refine ⟨k, (lt_numBatches_iff n l.length k hn).mp hk2, ?_⟩
  rw [← hceq, getElem_chunksOf]

theorem length_mem_chunksOf {α : Type _} {n : Nat} {l c : List α} (hn : 0 < n)
    (hc : c ∈ chunksOf n l) : 0 < c.length ∧ c.length ≤ n := by
  rcases mem_chunksOf hn hc with ⟨k, hk, rfl⟩
  rw [List.length_take, List.length_drop]
  omega

theorem chunksOf_dropLast_length {α : Type _} (n : Nat) (l : List α) (hn : 0 < n) :
    ∀ c ∈ (chunksOf n l).dropLast, c.length = n := by
  intro c hc
  rcases List.mem_iff_getElem.mp hc with ⟨k, hk, hceq⟩
  have hk2 : k < (chunksOf n l).length - 1 := by
    have := List.length_dropLast (chunksOf n l)
    omega
  have hk3 : k < (chunksOf n l).length := by omega
  have hgl : (chunksOf n l).dropLast[k] = (chunksOf n l)[k] :=
    List.getElem_dropLast (chunksOf n l) k hk
  rw [hgl, getElem_chunksOf n l k hk3] at hceq
  subst hceq
  have hnb : k + 1 < numBatches n l.length := by
    rw [chunksOf_length n l] at hk2
    omega
  have hlt := (lt_numBatches_iff n l.length (k + 1) hn).mp hnb
  have hmul : (k + 1) * n = k * n + n := Nat.succ_mul k n
  rw [List.length_take, List.length_drop]
  omega

theorem chunksOf_cons {α : Type _} (n : Nat) (l : List α) (hn : 0 < n) (hl : l ≠ []) :
    chunksOf n l = l.take n :: chunksOf n (l.drop n) := by
  have hlen : 0 < l.length := List.length_pos.mpr hl
  have hm : numBatches n l.length = (l.length - 1) / n + 1 := numBatches_pos_eq _ _ hn hlen
  have hm2 : numBatches n (l.drop n).length = (l.length - 1) / n := by
    rw [List.length_drop]
    cases Nat.lt_or_ge l.length (n + 1) with
    | inl hle =>
      have h0 : l.length - n = 0 := by omega
      rw [h0, numBatches_zero]
      symm
      exact Nat.div_eq_of_lt (by omega)
    | inr hgt =>
      have hpos : 0 < l.length - n := by omega
      rw [numBatches_pos_eq n _ hn hpos]
      have h9 : l.length - 1 = (l.length - n - 1) + n := by omega
      rw [h9, Nat.add_div_right _ hn]
  show (List.range (numBatches n l.length)).map _ = _
  rw [hm, List.range_succ_eq_map, List.map_cons, List.map_map]
  congr 1
  · simp
  · show _ = (List.range (numBatches n (l.drop n).length)).map _
    rw [hm2]
    apply List.map_congr_left
    intro k _
    simp only [Function.comp, Nat.succ_eq_add_one]
    rw [List.drop_drop]
    have hmul : (k + 1) * n = k * n + n := Nat.succ_mul k n
    rw [hmul, Nat.add_comm (k * n) n]

theorem chunksOf_flatten_fuel {α : Type _} (n : Nat) (hn : 0 < n) :
    ∀ (fuel : Nat) (l : List α), l.length ≤ fuel → (chunksOf n l).flatten = l := by
  intro fuel
  induction fuel with
  | zero =>
    intro l h
    have hl : l = [] := by
      cases l with
      | nil => rfl
      | cons a t => simp at h
    subst hl
    simp [chunksOf_nil]
  | succ f ih =>
    intro l h
    by_cases hl : l = []
    · subst hl
      simp [chunksOf_nil]
    · rw [chunksOf_cons n l hn hl, List.flatten_cons,
        ih (l.drop n) (by rw [List.length_drop]; have := List.length_pos.mpr hl; omega)]
      exact List.take_append_drop n l

theorem chunksOf_flatten {α : Type _} (n : Nat) (l : List α) (hn : 0 < n) :
    (chunksOf n l).flatten = l :=
  chunksOf_flatten_fuel n hn l.length l le_rfl

/-! ### Helper lemmas: storage effects -/

theorem mkRows_map_cardKey (productId : String) (s : Nat) (keys : List String) :
    (mkRows productId s keys).map (fun r => r.cardKey) = keys := by
  induction keys generalizing s with
  | nil => rfl
  | cons k ks ih => simp [mkRows, ih]

theorem mkRows_length (productId : String) (s : Nat) (keys : List String) :
    (mkRows productId s keys).length = keys.length := by
  induction keys generalizing s with
  | nil => rfl
  | cons k ks ih => simp [mkRows, ih]

theorem mkRows_productId (productId : String) (s : Nat) (keys : List String) :
    ∀ r ∈ mkRows productId s keys, r.productId = productId := by
  induction keys generalizing s with
  | nil => intro r hr; simp [mkRows] at hr
  | cons k ks ih =>
    intro r hr
    rcases List.mem_cons.mp hr with h | h
    · subst h; rfl
    · exact ih (s + 1) r h

theorem insertMany_eq (productId : String) (keys : List String) (st : Store) :
    insertMany productId keys st =
      { cards := st.cards ++ mkRows productId st.nextId keys,
        nextId := st.nextId + keys.length } := by
  induction keys generalizing st with
  | nil =>
    show st = _
    cases st with
    | mk cards nextId => simp [mkRows]
  | cons k ks ih =>
    show insertMany productId ks (insertRow productId k st) = _
    rw [ih]
    simp only [insertRow, mkRows, Store.mk.injEq, List.append_assoc, List.singleton_append,
      List.length_cons]
    exact ⟨trivial, by omega⟩

theorem insertMany_append (productId : String) (a b : List String) (st : Store) :
    insertMany productId (a ++ b) st = insertMany productId b (insertMany productId a st) := by
  unfold insertMany
  rw [List.foldl_append]

theorem foldl_insertMany (productId : String) (chunks : List (List String)) (st : Store) :
    chunks.foldl (fun s batch => insertMany productId batch s) st =
      insertMany productId chunks.flatten st := by
  induction chunks generalizing st with
  | nil => rfl
  | cons c cs ih =>
    show cs.foldl _ (insertMany productId c st) = _
    rw [ih, List.flatten_cons, insertMany_append]

/-! ### Helper lemmas: behavior of the admin actions -/

theorem addCardsBatch_unauthorized (adminEnv : Option String) (user : Option SessionUser)
    (productId : String) (cardKeys : List String) (st : Store)
    (h : isAdmin adminEnv user = false) :
    addCardsBatch adminEnv user productId cardKeys st = (st, Except.error "Unauthorized") := by
  simp [addCardsBatch, h]

theorem addCards_unauthorized (adminEnv : Option String) (user : Option SessionUser)
    (productId : String) (rawCards : String) (st : Store)
    (h : isAdmin adminEnv user = false) :
    addCards adminEnv user productId rawCards st = (st, Except.error "Unauthorized") := by
  simp [addCards, h]

theorem deleteCard_unauthorized (adminEnv : Option String) (user : Option SessionUser)
    (cardId : Nat) (now : Int) (st : Store)
    (h : isAdmin adminEnv user = false) :
    deleteCard adminEnv user cardId now st = (st, Except.error "Unauthorized") := by
  simp [deleteCard, h]

theorem deleteAllCards_unauthorized (adminEnv : Option String) (user : Option SessionUser)
    (productId : String) (now : Int) (st : Store)
    (h : isAdmin adminEnv user = false) :
    deleteAllCards adminEnv user productId now st = (st, Except.error "Unauthorized") := by
  simp [deleteAllCards, h]

theorem addCardsBatch_empty (adminEnv : Option String) (user : Option SessionUser)
    (productId : String) (cardKeys : List String) (st : Store)
    (h : isAdmin adminEnv user = true) (h0 : sanitize cardKeys = []) :
    addCardsBatch adminEnv user productId cardKeys st = (st, Except.ok 0) := by
  simp [addCardsBatch, h, h0]

theorem addCardsBatch_effect (adminEnv : Option String) (user : Option SessionUser)
    (productId : String) (cardKeys : List String) (st : Store)
    (h : isAdmin adminEnv user = true) (hne : sanitize cardKeys ≠ []) :
    addCardsBatch adminEnv user productId cardKeys st =
      ({ cards := st.cards ++ mkRows productId st.nextId (sanitize cardKeys),
         nextId := st.nextId + (sanitize cardKeys).length },
       Except.ok (sanitize cardKeys).length) := by
  have hlen : ¬ (sanitize cardKeys).length = 0 := by
    intro hc
    exact hne (List.length_eq_zero.mp hc)
  have hflat : (addCardsBatchInserts cardKeys).flatten = sanitize cardKeys :=
    chunksOf_flatten WRITER_BATCH_SIZE (sanitize cardKeys) (by decide)
  have hstep : addCardsBatch adminEnv user productId cardKeys st =
      ((addCardsBatchInserts cardKeys).foldl (fun s batch => insertMany productId batch s) st,
       Except.ok (sanitize cardKeys).length) := by
    simp [addCardsBatch, h, hlen]
  rw [hstep, foldl_insertMany, hflat, insertMany_eq]

theorem runBatches_cons_ok (adminEnv : Option String) (user : Option SessionUser)
    (productId : String) (b : List String) (rest : List (List String))
    (st st1 st2 : Store) (n m : Nat)
    (hstep : addCardsBatch adminEnv user productId b st = (st1, Except.ok n))
    (hrec : runBatches adminEnv user productId rest st1 = (st2, Except.ok m)) :
    runBatches adminEnv user productId (b :: rest) st = (st2, Except.ok (n + m)) := by
  simp only [runBatches, hstep, hrec]

theorem runBatches_effect (adminEnv : Option String) (user : Option SessionUser)
    (productId : String) (h : isAdmin adminEnv user = true) :
    ∀ (bs : List (List String)) (st : Store),
      (∀ b ∈ bs, sanitize b = b ∧ b ≠ []) →
      runBatches adminEnv user productId bs st =
        (insertMany productId bs.flatten st, Except.ok bs.flatten.length) := by
  intro bs
  induction bs with
  | nil =>
    intro st _
    rfl
  | cons b rest ih =>
    intro st hall
    have hb := hall b (List.mem_cons_self b rest)
    have hrest : ∀ x ∈ rest, sanitize x = x ∧ x ≠ [] :=
      fun x hx => hall x (List.mem_cons_of_mem b hx)
    have hbne : sanitize b ≠ [] := by rw [hb.1]; exact hb.2
    have hstep := addCardsBatch_effect adminEnv user productId b st h hbne
    have hrec := ih ⟨st.cards ++ mkRows productId st.nextId (sanitize b), st.nextId + (sanitize b).length⟩ hrest
    rw [runBatches_cons_ok adminEnv user productId b rest st _ _ _ _ hstep hrec]
    rw [List.flatten_cons, insertMany_append, insertMany_eq productId b st, hb.1,
      List.length_append]

theorem jsRound_le_100 (num den : Nat) (hden : 0 < den) (h : num ≤ den * 100) :
    jsRound num den ≤ 100 := by
  unfold jsRound
  have h1 : 2 * num + den ≤ 201 * den := by omega
  have h2 : (2 * num + den) / (2 * den) ≤ 201 * den / (2 * den) :=
    Nat.div_le_div_right h1
  have hco : 201 * den = 2 * den * 100 + den := by ring
  rw [hco, Nat.mul_add_div (show 0 < 2 * den by omega),
    Nat.div_eq_of_lt (show den < 2 * den by omega)] at h2
  omega

/-! ### The claims -/

/-- C1: for every product id and key list, `addCardsBatch` trims every key and
drops keys that are empty after trimming; if no key survives it returns
`{ success: 0 }` and the store is untouched; otherwise it returns the number
of surviving keys and appends exactly one row per surviving key, the appended
rows carrying exactly the surviving keys in order. -/
theorem addCardsBatch_spec (adminEnv : Option String) (user : Option SessionUser)
    (productId : String) (cardKeys : List String) (st : Store)
    (h : isAdmin adminEnv user = true) :
    sanitize cardKeys = (cardKeys.map jsTrim).filter (fun k => k != "") ∧
    (sanitize cardKeys = [] →
      addCardsBatch adminEnv user productId cardKeys st = (st, Except.ok 0)) ∧
    (sanitize cardKeys ≠ [] →
      addCardsBatch adminEnv user productId cardKeys st =
        ({ cards := st.cards ++ mkRows productId st.nextId (sanitize cardKeys),
           nextId := st.nextId + (sanitize cardKeys).length },
         Except.ok (sanitize cardKeys).length)) ∧
    (mkRows productId st.nextId (sanitize cardKeys)).map (fun r => r.cardKey) =
      sanitize cardKeys ∧
    (mkRows productId st.nextId (sanitize cardKeys)).length = (sanitize cardKeys).length :=
  ⟨rfl,
   fun h0 => addCardsBatch_empty adminEnv user productId cardKeys st h h0,
   fun hne => addCardsBatch_effect adminEnv user productId cardKeys st h hne,
   mkRows_map_cardKey productId st.nextId (sanitize cardKeys),
   mkRows_length productId st.nextId (sanitize cardKeys)⟩

/-- C1 witness: the spec example, evaluated. -/
theorem addCardsBatch_spec_witness :
    addCardsBatch (some "admin") (some ⟨"admin"⟩) "p1" [" a ", "", "b\t", "   "] ⟨[], 0⟩ =
      ({ cards := mkRows "p1" 0 ["a", "b"], nextId := 2 }, Except.ok 2) := by
  have h := (addCardsBatch_spec (some "admin") (some ⟨"admin"⟩) "p1"
      [" a ", "", "b\t", "   "] ⟨[], 0⟩ (by decide)).2.2.1 (by decide)
  exact h.trans (by decide)

/-- C2: for every caller that does not pass the case-insensitive allow-list
membership test, every mutating admin action — `addCardsBatch`, `deleteCard`,
`deleteAllCards`, `addCards`, `saveProduct`, `deleteProduct`,
`toggleProductStatus`, `reorderProduct`, `saveShopName`, `deleteReview`,
`saveLowStockThreshold`, `saveCheckinReward`, `saveCheckinEnabled`,
`saveCategory`, `deleteCategory` — fails with the Unauthorized error and
returns the storage state unchanged, before any storage access. -/
theorem unauthorized_mutations_spec (adminEnv : Option String) (user : Option SessionUser)
    (h : isAdmin adminEnv user = false) :
    (∀ productId cardKeys st, addCardsBatch adminEnv user productId cardKeys st =
      (st, Except.error "Unauthorized")) ∧
    (∀ cardId now st, deleteCard adminEnv user cardId now st =
      (st, Except.error "Unauthorized")) ∧
    (∀ productId now st, deleteAllCards adminEnv user productId now st =
      (st, Except.error "Unauthorized")) ∧
    (∀ productId rawCards st, addCards adminEnv user productId rawCards st =
      (st, Except.error "Unauthorized")) ∧
    (∀ form now db, saveProduct adminEnv user form now db =
      (db, Except.error "Unauthorized")) ∧
    (∀ id db, deleteProduct adminEnv user id db = (db, Except.error "Unauthorized")) ∧
    (∀ id isActive db, toggleProductStatus adminEnv user id isActive db =
      (db, Except.error "Unauthorized")) ∧
    (∀ id newOrder db, reorderProduct adminEnv user id newOrder db =
      (db, Except.error "Unauthorized")) ∧
    (∀ rawName db, saveShopName adminEnv user rawName db =
      (db, Except.error "Unauthorized")) ∧
    (∀ reviewId db, deleteReview adminEnv user reviewId db =
      (db, Except.error "Unauthorized")) ∧
    (∀ raw db, saveLowStockThreshold adminEnv user raw db =
      (db, Except.error "Unauthorized")) ∧
    (∀ raw db, saveCheckinReward adminEnv user raw db =
      (db, Except.error "Unauthorized")) ∧
    (∀ enabled db, saveCheckinEnabled adminEnv user enabled db =
      (db, Except.error "Unauthorized")) ∧
    (∀ form now db, saveCategory adminEnv user form now db =
      (db, Except.error "Unauthorized")) ∧
    (∀ id db, deleteCategory adminEnv user id db = (db, Except.error "Unauthorized")) :=
  ⟨fun p k s => addCardsBatch_unauthorized adminEnv user p k s h,
   fun c n s => deleteCard_unauthorized adminEnv user c n s h,
   fun p n s => deleteAllCards_unauthorized adminEnv user p n s h,
   fun p r s => addCards_unauthorized adminEnv user p r s h,
   fun f n d => by simp [saveProduct, h],
   fun i d => by simp [deleteProduct, h],
   fun i a d => by simp [toggleProductStatus, h],
   fun i o d => by simp [reorderProduct, h],
   fun r d => by simp [saveShopName, h],
   fun r d => by simp [deleteReview, h],
   fun r d => by simp [saveLowStockThreshold, h],
   fun r d => by simp [saveCheckinReward, h],
   fun e d => by simp [saveCheckinEnabled, h],
   fun f n d => by simp [saveCategory, h],
   fun i d => by simp [deleteCategory, h]⟩

/-- C2 witness: a caller absent from the allow-list is rejected by
`addCardsBatch`, `deleteCard`, `saveProduct` and `deleteCategory` with the
respective store unchanged. -/
theorem unauthorized_mutations_spec_witness :
    addCardsBatch (some "alice,Bob") (some ⟨"carol"⟩) "p1" ["k"] ⟨[], 0⟩ =
      (⟨[], 0⟩, Except.error "Unauthorized") ∧
    deleteCard (some "alice,Bob") (some ⟨"carol"⟩) 1 1000 ⟨[], 0⟩ =
      (⟨[], 0⟩, Except.error "Unauthorized") ∧
    saveProduct (some "alice,Bob") (some ⟨"carol"⟩)
        ⟨none, "n", "d", "1", none, "", "", none, none⟩ 0 ⟨[], [], [], 0, []⟩ =
      (⟨[], [], [], 0, []⟩, Except.error "Unauthorized") ∧
    deleteCategory (some "alice,Bob") (some ⟨"carol"⟩) 1 ⟨[], [], [], 0, []⟩ =
      (⟨[], [], [], 0, []⟩, Except.error "Unauthorized") :=
  ⟨(unauthorized_mutations_spec (some "alice,Bob") (some ⟨"carol"⟩) (by decide)).1
      "p1" ["k"] ⟨[], 0⟩,
   (unauthorized_mutations_spec (some "alice,Bob") (some ⟨"carol"⟩) (by decide)).2.1
      1 1000 ⟨[], 0⟩,
   (unauthorized_mutations_spec (some "alice,Bob") (some ⟨"carol"⟩) (by decide)).2.2.2.2.1
      ⟨none, "n", "d", "1", none, "", "", none, none⟩ 0 ⟨[], [], [], 0, []⟩,
   (unauthorized_mutations_spec (some "alice,Bob") (some ⟨"carol"⟩)
      (by decide)).2.2.2.2.2.2.2.2.2.2.2.2.2.2 1 ⟨[], [], [], 0, []⟩⟩

/-- C5: for every non-empty key list and positive batch size, the
coordinator's chunking yields at least one batch, concatenating the batches
reconstructs the list exactly, every batch except possibly the last has
exactly `batchSize` elements, and every batch is non-empty with at most
`batchSize` elements. -/
theorem chunksOf_spec (l : List String) (n : Nat) (hl : l ≠ []) (hn : 0 < n) :
    (chunksOf n l).flatten = l ∧
    (∀ c ∈ (chunksOf n l).dropLast, c.length = n) ∧
    (∀ c ∈ chunksOf n l, 0 < c.length ∧ c.length ≤ n) ∧
    chunksOf n l ≠ [] := by
  refine ⟨chunksOf_flatten n l hn, chunksOf_dropLast_length n l hn,
    fun c hc => length_mem_chunksOf hn hc, ?_⟩
  intro hc
  have h0 : 0 < numBatches n l.length := by
    rw [lt_numBatches_iff n l.length 0 hn]
    have := List.length_pos.mpr hl
    omega
  have := chunksOf_length n l
  rw [hc] at this
  simp at this
  omega

/-- C5 witness: chunking a three-element list with batch size two. -/
theorem chunksOf_spec_witness :
    (chunksOf 2 ["a", "b", "c"]).flatten = ["a", "b", "c"] ∧
    (∀ c ∈ (chunksOf 2 ["a", "b", "c"]).dropLast, c.length = 2) ∧
    (∀ c ∈ chunksOf 2 ["a", "b", "c"], 0 < c.length ∧ c.length ≤ 2) ∧
    chunksOf 2 ["a", "b", "c"] ≠ [] :=
  chunksOf_spec ["a", "b", "c"] 2 (by decide) (by decide)

/-- C7: the Batch Writer sub-chunks every insert: whatever the size of the
call's input, no single insert statement of `addCardsBatch` receives more
than `WRITER_BATCH_SIZE` keys, and that internal constant (10) is distinct
from the coordinator's transport-level batch size (50). -/
theorem writer_subchunk_spec :
    (∀ cardKeys : List String, ∀ b ∈ addCardsBatchInserts cardKeys,
      b.length ≤ WRITER_BATCH_SIZE) ∧
    WRITER_BATCH_SIZE = 10 ∧ CLIENT_BATCH_SIZE = 50 ∧
    WRITER_BATCH_SIZE ≠ CLIENT_BATCH_SIZE := by
  refine ⟨?_, rfl, rfl, by decide⟩
  intro cardKeys b hb
  exact (length_mem_chunksOf (by decide) hb).2

/-- C7 witness: a 23-key call yields a first insert of exactly ten keys,
within the writer bound. -/
theorem writer_subchunk_spec_witness :
    (List.replicate 10 "k").length ≤ WRITER_BATCH_SIZE :=
  writer_subchunk_spec.1 (List.replicate 23 "k") (List.replicate 10 "k") (by decide)

/-- C10: with the admin environment variable unset, the parsed allow-list is
empty, `checkAdmin` rejects every caller, and every mutating card operation
fails with Unauthorized for every caller, leaving the store unchanged. -/
theorem no_admins_fail_closed :
    parseAdminUsers none = [] ∧
    (∀ user, isAdmin none user = false) ∧
    (∀ user productId cardKeys st, addCardsBatch none user productId cardKeys st =
      (st, Except.error "Unauthorized")) ∧
    (∀ user cardId now st, deleteCard none user cardId now st =
      (st, Except.error "Unauthorized")) ∧
    (∀ user productId now st, deleteAllCards none user productId now st =
      (st, Except.error "Unauthorized")) ∧
    (∀ user productId rawCards st, addCards none user productId rawCards st =
      (st, Except.error "Unauthorized")) := by
  have hadm : ∀ user, isAdmin none user = false := by
    intro user
    cases user with
    | none => rfl
    | some u => simp [isAdmin, parseAdminUsers]
  exact ⟨rfl, hadm,
    fun u p k s => addCardsBatch_unauthorized none u p k s (hadm u),
    fun u c n s => deleteCard_unauthorized none u c n s (hadm u),
    fun u p n s => deleteAllCards_unauthorized none u p n s (hadm u),
    fun u p r s => addCards_unauthorized none u p r s (hadm u)⟩

/-- C3: `deleteCard` fails with NotFound when no row has the id, with a
conflict when the row's used flag is truthy, with a conflict when the row
carries a reservation strictly younger than 60 seconds, and removes the row
exactly when none of these hold; every error path leaves the store
unchanged. -/
theorem deleteCard_spec (adminEnv : Option String) (user : Option SessionUser)
    (cardId : Nat) (now : Int) (st : Store)
    (h : isAdmin adminEnv user = true) :
    (st.cards.find? (fun c => c.id == cardId) = none →
      deleteCard adminEnv user cardId now st = (st, Except.error "Card not found")) ∧
    (∀ card, st.cards.find? (fun c => c.id == cardId) = some card →
      (card.isUsed = some true →
        deleteCard adminEnv user cardId now st = (st, Except.error "Cannot delete used card")) ∧
      (card.isUsed ≠ some true → recentlyReserved now card = true →
        deleteCard adminEnv user cardId now st =
          (st, Except.error "Cannot delete reserved card")) ∧
      (card.isUsed ≠ some true → recentlyReserved now card = false →
        deleteCard adminEnv user cardId now st =
          ({ st with cards := st.cards.filter (fun c => !(c.id == cardId)) }, Except.ok ()))) ∧
    (∀ card : CardRow, recentlyReserved now card = true ↔
      ∃ t, card.reservedAt = some t ∧ now - 60000 < t) := by
  refine ⟨?_, ?_, ?_⟩
  · intro hfind
    simp [deleteCard, h, hfind]
  · intro card hfind
    refine ⟨?_, ?_, ?_⟩
    · intro hu
      simp [deleteCard, h, hfind, hu]
    · intro hu hr
      simp [deleteCard, h, hfind, hu, hr, beq_iff_eq]
    · intro hu hr
      simp [deleteCard, h, hfind, hu, hr, beq_iff_eq]
  · intro card
    cases hr : card.reservedAt with
    | none => simp [recentlyReserved, hr]
    | some t => simp [recentlyReserved, hr]

/-- C3 witness: with `now = 100000`, a card reserved 30 seconds ago (at
70000) is refused with the reservation conflict and the store is unchanged,
while a card reserved 90 seconds ago (at 10000) is deleted. -/
theorem deleteCard_spec_witness :
    deleteCard (some "admin") (some ⟨"admin"⟩) 1 100000
        ⟨[⟨1, "p1", "k1", some false, some 70000⟩, ⟨2, "p1", "k2", some false, some 10000⟩], 3⟩ =
      (⟨[⟨1, "p1", "k1", some false, some 70000⟩, ⟨2, "p1", "k2", some false, some 10000⟩], 3⟩,
       Except.error "Cannot delete reserved card") ∧
    deleteCard (some "admin") (some ⟨"admin"⟩) 2 100000
        ⟨[⟨1, "p1", "k1", some false, some 70000⟩, ⟨2, "p1", "k2", some false, some 10000⟩], 3⟩ =
      (⟨[⟨1, "p1", "k1", some false, some 70000⟩], 3⟩, Except.ok ()) := by
  constructor
  · exact ((deleteCard_spec (some "admin") (some ⟨"admin"⟩) 1 100000 _ (by decide)).2.1
      ⟨1, "p1", "k1", some false, some 70000⟩ (by decide)).2.1 (by decide) (by decide)
  · exact (((deleteCard_spec (some "admin") (some ⟨"admin"⟩) 2 100000 _ (by decide)).2.1
      ⟨2, "p1", "k2", some false, some 10000⟩ (by decide)).2.2 (by decide) (by decide)).trans
      (by decide)

/-- C4: `deleteAllCards` performs one conditional filtered delete removing
exactly the rows of the product whose used flag is not truthy and whose
reservation is absent or strictly older than 60 seconds, keeps every other
row, and returns the number of removed rows. -/
theorem deleteAllCards_spec (adminEnv : Option String) (user : Option SessionUser)
    (productId : String) (now : Int) (st : Store)
    (h : isAdmin adminEnv user = true) :
    deleteAllCards adminEnv user productId now st =
      ({ st with cards := st.cards.filter (fun c => !(deletable productId now c)) },
       Except.ok (st.cards.filter (fun c => deletable productId now c)).length) ∧
    (∀ c : CardRow, deletable productId now c = true ↔
      c.productId = productId ∧ c.isUsed ≠ some true ∧
        (c.reservedAt = none ∨ ∃ t, c.reservedAt = some t ∧ t < now - 60000)) ∧
    (∀ c ∈ st.cards, deletable productId now c = false →
      c ∈ st.cards.filter (fun x => !(deletable productId now x))) := by
  refine ⟨by simp [deleteAllCards, h], ?_, ?_⟩
  · intro c
    cases hr : c.reservedAt with
    | none => simp [deletable, hr, Bool.and_eq_true, beq_iff_eq, beq_eq_false_iff_ne,
        Bool.not_eq_true']
    | some t => simp [deletable, hr, Bool.and_eq_true, beq_iff_eq, beq_eq_false_iff_ne,
        Bool.not_eq_true', and_assoc]
  · intro c hc hfalse
    exact List.mem_filter.mpr ⟨hc, by simp [hfalse]⟩

/-- C4 witness: a product with three unused, unreserved keys and two used
keys loses exactly the three unused keys and reports three deletions. -/
theorem deleteAllCards_spec_witness :
    deleteAllCards (some "admin") (some ⟨"admin"⟩) "p1" 100000
        ⟨[⟨1, "p1", "k1", some false, none⟩, ⟨2, "p1", "k2", some false, none⟩,
          ⟨3, "p1", "k3", some false, none⟩, ⟨4, "p1", "u1", some true, none⟩,
          ⟨5, "p1", "u2", some true, none⟩], 6⟩ =
      (⟨[⟨4, "p1", "u1", some true, none⟩, ⟨5, "p1", "u2", some true, none⟩], 6⟩,
       Except.ok 3) :=
  ((deleteAllCards_spec (some "admin") (some ⟨"admin"⟩) "p1" 100000 _ (by decide)).1).trans
    (by decide)

/-- C6 counterexample: uploading 60 keys runs batches at offsets 0 and 50;
after the second batch the code sets the percent state to 167, while the
claimed formula round(processed/total*100) gives 100, so the percent both
differs from the claimed value and exceeds 100. -/
theorem uploadProgress_cex :
    uploadSteps 60 = [(0, 50, 83), (50, 60, 167)] ∧
    jsRound (60 * 100) 60 = 100 ∧
    100 < 167 :=
  ⟨by decide, by decide, by decide⟩

/-- C6 amended: after each batch at offset `i` the coordinator sets
`processed = min(i + batchSize, total)` but computes
`percent = round((i + batchSize)/total*100)` from the unclamped offset;
whenever `i + batchSize ≤ total` (every batch except a final partial one)
this agrees with round(processed/total*100) and never exceeds 100, while a
final partial batch may push the percent above 100. -/
theorem uploadSteps_spec_amended (total : Nat) (htotal : 0 < total) :
    ∀ step ∈ uploadSteps total,
      step.2.1 = min (step.1 + CLIENT_BATCH_SIZE) total ∧
      step.2.2 = jsRound ((step.1 + CLIENT_BATCH_SIZE) * 100) total ∧
      step.1 < total ∧
      (step.1 + CLIENT_BATCH_SIZE ≤ total →
        step.2.2 = jsRound (step.2.1 * 100) total ∧ step.2.2 ≤ 100) := by
  intro step hstep
  unfold uploadSteps at hstep
  rcases List.mem_map.mp hstep with ⟨k, hk, rfl⟩
  have hk2 : k < numBatches CLIENT_BATCH_SIZE total := List.mem_range.mp hk
  have hklt : k * CLIENT_BATCH_SIZE < total :=
    (lt_numBatches_iff CLIENT_BATCH_SIZE total k (by decide)).mp hk2
  refine ⟨rfl, rfl, hklt, ?_⟩
  intro hle
  constructor
  · show jsRound ((k * CLIENT_BATCH_SIZE + CLIENT_BATCH_SIZE) * 100) total =
      jsRound (min (k * CLIENT_BATCH_SIZE + CLIENT_BATCH_SIZE) total * 100) total
    rw [Nat.min_eq_left hle]
  · exact jsRound_le_100 _ _ htotal (Nat.mul_le_mul_right 100 hle)

/-- C6 amended witness: with 100 keys, the step after the second batch has
processed = 100 and percent = 100 = round(processed/total*100) ≤ 100. -/
theorem uploadSteps_spec_amended_witness :
    (100 : Nat) = min (50 + CLIENT_BATCH_SIZE) 100 ∧
    (100 : Nat) = jsRound ((50 + CLIENT_BATCH_SIZE) * 100) 100 ∧
    (50 : Nat) < 100 ∧
    (50 + CLIENT_BATCH_SIZE ≤ 100 →
      (100 : Nat) = jsRound (100 * 100) 100 ∧ (100 : Nat) ≤ 100) :=
  uploadSteps_spec_amended 100 (by decide) (50, 100, 100) (by decide)

theorem normalize_single (s : String) (hs : '\n' ∉ s.data) :
    normalize s = if jsTrim s = "" then [] else [jsTrim s] := by
  have hsplit : jsSplitNl s = [s] := by
    unfold jsSplitNl
    rw [splitOnChar_of_not_mem '\n' s.data hs]
    rfl
  unfold normalize
  rw [hsplit]
  by_cases h0 : jsTrim s = ""
  · simp [h0]
  · simp [h0, bne_iff_ne]

/-- C8: normalization splits only on newline characters: splitting
distributes over a newline however the surrounding text looks, and any text
without a newline — in particular one containing commas — yields at most its
own trimmed content as a single key. -/
theorem normalize_spec :
    (∀ a b : String, normalize (a ++ "\n" ++ b) = normalize a ++ normalize b) ∧
    (∀ s : String, '\n' ∉ s.data →
      normalize s = if jsTrim s = "" then [] else [jsTrim s]) := by
  refine ⟨?_, normalize_single⟩
  intro a b
  have hdata : (a ++ "\n" ++ b).data = a.data ++ '\n' :: b.data := by
    rw [String.data_append, String.data_append]
    rw [show ("\n" : String).data = ['\n'] from rfl]
    simp
  unfold normalize jsSplitNl
  rw [hdata, splitOnChar_append, List.map_append, List.map_append, List.filter_append]

/-- C8 witness: a key containing a comma survives intact as one key, and a
newline splits two such keys. -/
theorem normalize_spec_witness :
    normalize ("ab,cd" ++ "\n" ++ " x ") = normalize "ab,cd" ++ normalize " x " ∧
    normalize "ab,cd" = ["ab,cd"] := by
  refine ⟨normalize_spec.1 "ab,cd" " x ", ?_⟩
  have h := normalize_spec.2 "ab,cd" (by decide)
  exact h.trans (by decide)

/-- C9: the ingestion path performs no duplicate detection: uploading the
same file twice against a product with no prior rows leaves exactly `2 * N`
rows for that product, whose key strings are the normalized key list listed
twice, in order. -/
theorem double_upload_spec (adminEnv : Option String) (user : Option SessionUser)
    (productId : String) (text : String) (st : Store)
    (h : isAdmin adminEnv user = true)
    (hne : normalize text ≠ [])
    (hstart : st.cards.filter (fun c => c.productId == productId) = []) :
    ((handleFileUpload adminEnv user productId text
        (handleFileUpload adminEnv user productId text st).1).1.cards.filter
          (fun c => c.productId == productId)).map (fun c => c.cardKey)
      = normalize text ++ normalize text ∧
    ((handleFileUpload adminEnv user productId text
        (handleFileUpload adminEnv user productId text st).1).1.cards.filter
          (fun c => c.productId == productId)).length
      = 2 * (normalize text).length := by
  have hlen0 : ¬ (normalize text).length = 0 := fun hc => hne (List.length_eq_zero.mp hc)
  have hchunks : ∀ b ∈ chunksOf CLIENT_BATCH_SIZE (normalize text),
      sanitize b = b ∧ b ≠ [] := by
    intro b hb
    have hbpos := (length_mem_chunksOf (show 0 < CLIENT_BATCH_SIZE by decide) hb).1
    have hbne : b ≠ [] := by
      intro hc
      rw [hc] at hbpos
      simp at hbpos
    refine ⟨sanitize_eq_self ?_, hbne⟩
    intro k hk
    have hkmem : k ∈ (chunksOf CLIENT_BATCH_SIZE (normalize text)).flatten :=
      List.mem_flatten.mpr ⟨b, hb, hk⟩
    rw [chunksOf_flatten _ _ (by decide)] at hkmem
    exact mem_normalize hkmem
  have hrun : ∀ s0 : Store, handleFileUpload adminEnv user productId text s0 =
      (insertMany productId (normalize text) s0, Except.ok (normalize text).length) := by
    intro s0
    have heff := runBatches_effect adminEnv user productId h
      (chunksOf CLIENT_BATCH_SIZE (normalize text)) s0 hchunks
    rw [chunksOf_flatten CLIENT_BATCH_SIZE (normalize text) (by decide)] at heff
    simpa [handleFileUpload, hlen0] using heff
  have h1 : (handleFileUpload adminEnv user productId text st).1 =
      insertMany productId (normalize text) st := by rw [hrun st]
  have h2 : (handleFileUpload adminEnv user productId text
      (insertMany productId (normalize text) st)).1 =
      insertMany productId (normalize text) (insertMany productId (normalize text) st) := by
    rw [hrun (insertMany productId (normalize text) st)]
  have hca : (insertMany productId (normalize text)
        (insertMany productId (normalize text) st)).cards
      = (st.cards ++ mkRows productId st.nextId (normalize text)) ++
          mkRows productId (st.nextId + (normalize text).length) (normalize text) := by
    simp [insertMany_eq]
  have hfil : ∀ s0 : Nat, (mkRows productId s0 (normalize text)).filter
      (fun c => c.productId == productId) = mkRows productId s0 (normalize text) := by
    intro s0
    refine List.filter_eq_self.mpr ?_
    intro r hr
    have := mkRows_productId productId s0 (normalize text) r hr
    simp [this]
  constructor
  · rw [h1, h2, hca, List.filter_append, List.filter_append, hstart, hfil, hfil,
      List.nil_append, List.map_append, mkRows_map_cardKey, mkRows_map_cardKey]
  · rw [h1, h2, hca, List.filter_append, List.filter_append, hstart, hfil, hfil,
      List.nil_append, List.length_append, mkRows_length, mkRows_length]
    omega

/-- C9 witness: uploading the two-line file twice into an empty store yields
four rows carrying the two keys twice. -/
theorem double_upload_spec_witness :
    ((handleFileUpload (some "admin") (some ⟨"admin"⟩) "p1" "k1\nk2"
        (handleFileUpload (some "admin") (some ⟨"admin"⟩) "p1" "k1\nk2" ⟨[], 0⟩).1).1.cards.filter
          (fun c => c.productId == "p1")).map (fun c => c.cardKey) = ["k1", "k2", "k1", "k2"] ∧
    ((handleFileUpload (some "admin") (some ⟨"admin"⟩) "p1" "k1\nk2"
        (handleFileUpload (some "admin") (some ⟨"admin"⟩) "p1" "k1\nk2" ⟨[], 0⟩).1).1.cards.filter
          (fun c => c.productId == "p1")).length = 4 := by
  have h := double_upload_spec (some "admin") (some ⟨"admin"⟩) "p1" "k1\nk2" ⟨[], 0⟩
    (by decide) (by decide) (by decide)
  exact ⟨h.1.trans (by decide), h.2.trans (by decide)⟩

end LdcShop
